import Mathlib

/-!
Verification of the `python_brain` decision core: a shallow embedding of the
regime classifier, the three signal generators, the performance-history store,
the EV estimator, the strategy selector, the position sizer, the decision
engine, and the backtest simulator, over exact rational arithmetic, together
with theorems settling the specification's testable properties.
-/

set_option maxHeartbeats 1600000
set_option maxRecDepth 4000

attribute [local semireducible] Rat.add Rat.mul Rat.inv Rat.sub Rat.ofScientific

/-- Trade direction, `core/types.py` `Direction = Literal["long", "short"]`. -/
inductive Direction where
  | long
  | short
deriving DecidableEq, Repr

/-- `core/types.py` `StrategySignal`. -/
structure StrategySignal where
  direction : Direction
  entry : ℚ
  stop : ℚ
  target : ℚ
deriving DecidableEq, Repr

/-- `core/types.py` `StrategyStats`, extended by the `signal` attribute that
`TradingEngine.step` attaches dynamically (`stat.signal = signal`). -/
structure StrategyStats where
  name : String
  regime : String
  win_rate : ℚ
  avg_win : ℚ
  avg_loss : ℚ
  ev : ℚ
  confidence : ℚ
  signal : Option StrategySignal := none
deriving DecidableEq, Repr

/-- `core/features.py` `MarketFeatures`. -/
structure MarketFeatures where
  price : ℚ
  atr_pct : ℚ
  atr_value : ℚ
  adx : ℚ
  ema_fast_slope : ℚ
  ema_slow_slope : ℚ
  volume_z : ℚ
  funding_rate : ℚ
  ret_1 : ℚ
  ret_5 : ℚ
  hurst : ℚ := 0.5
deriving DecidableEq, Repr

/-- `core/regime.py` `MarketRegime`. -/
inductive MarketRegime where
  | TREND
  | CHOP
  | DISTRIBUTION
  | SQUEEZE
deriving DecidableEq, Repr

/-- The `.value` string of each `MarketRegime` enum member. -/
def MarketRegime.str : MarketRegime → String
  | .TREND => "trend"
  | .CHOP => "chop"
  | .DISTRIBUTION => "distribution"
  | .SQUEEZE => "squeeze"

/-- `core/regime.py` `detect_regime`. -/
def detect_regime (f : MarketFeatures) : MarketRegime :=
  if 0.015 < f.atr_pct ∧ 2.0 < f.volume_z then .SQUEEZE
  else if 0.6 < f.hurst ∨ 25 < f.adx then .TREND
  else if f.hurst < 0.45 then .DISTRIBUTION
  else if f.adx < 20 ∧ f.atr_pct < 0.005 then .CHOP
  else .DISTRIBUTION

/-- First-match-wins evaluation of an ordered rule list: the regime of the
first rule whose condition holds, or the default when none does. -/
def firstMatch (rules : List ((MarketFeatures → Bool) × MarketRegime))
    (dflt : MarketRegime) (f : MarketFeatures) : MarketRegime :=
  match rules with
  | [] => dflt
  | (c, r) :: rest => if c f then r else firstMatch rest dflt f

/-- The ordered rule list actually implemented by `detect_regime`. -/
def regimeRules : List ((MarketFeatures → Bool) × MarketRegime) :=
  [ (fun f => decide (0.015 < f.atr_pct ∧ 2.0 < f.volume_z), .SQUEEZE),
    (fun f => decide (0.6 < f.hurst ∨ 25 < f.adx), .TREND),
    (fun f => decide (f.hurst < 0.45), .DISTRIBUTION),
    (fun f => decide (f.adx < 20 ∧ f.atr_pct < 0.005), .CHOP) ]

/-- The rule list claimed by the specification (§4.1): CHOP, SQUEEZE, TREND in
that order, defaulting to DISTRIBUTION. -/
def specRegimeRules : List ((MarketFeatures → Bool) × MarketRegime) :=
  [ (fun f => decide (f.atr_pct < 0.006 ∧ f.adx < 18), .CHOP),
    (fun f => decide (0.015 < f.atr_pct ∧ 1.2 < f.volume_z), .SQUEEZE),
    (fun f => decide (22 < f.adx), .TREND) ]

/-- `core/strategies/breakout.py` `BreakoutStrategy.generate`. -/
def breakoutGenerate (f : MarketFeatures) : Option StrategySignal :=
  if f.adx < 20 then none
  else if f.atr_pct < 0.002 then none
  else if f.volume_z < 0.5 then none
  else
    let adx_bonus := min ((f.adx - 25) * 0.05) 1.0
    let volume_bonus := min ((f.volume_z - 1.0) * 0.3) 0.5
    let tp_multiplier := min (2.0 + adx_bonus + volume_bonus) 4.0
    let sl_multiplier : ℚ := if 0.015 < f.atr_pct then 1.5 else 1.2
    if 0.0005 < f.ema_fast_slope ∧ 0 < f.ema_slow_slope then
      if 0.0003 < f.funding_rate then none
      else some { direction := .long, entry := f.price,
                  stop := f.price - f.atr_value * sl_multiplier,
                  target := f.price + f.atr_value * tp_multiplier }
    else if f.ema_fast_slope < -0.0005 ∧ f.ema_slow_slope < 0 then
      if f.funding_rate < -0.0003 then none
      else some { direction := .short, entry := f.price,
                  stop := f.price + f.atr_value * sl_multiplier,
                  target := f.price - f.atr_value * tp_multiplier }
    else none

/-- `core/strategies/trend.py` `TrendStrategy.generate`. -/
def trendGenerate (f : MarketFeatures) : Option StrategySignal :=
  if f.adx < 30 then none
  else if f.atr_pct < 0.002 then none
  else
    let is_strong_trend := 40 < f.adx
    let funding_long_signal := f.funding_rate < -0.0001
    let funding_short_signal := 0.0002 < f.funding_rate
    let long_momentum := 0 < f.ret_1 ∧ 0 < f.ret_5
    let short_momentum := f.ret_1 < 0 ∧ f.ret_5 < 0
    let tp_mult : ℚ := 3.0 + (if is_strong_trend then 1.0 else 0)
      + (if funding_long_signal ∨ funding_short_signal then 0.5 else 0)
    let tp_mult := min tp_mult 6.0
    if 0.0008 < f.ema_fast_slope ∧ 0.0002 < f.ema_slow_slope then
      if ¬(long_momentum ∨ funding_long_signal) then none
      else
        let sl_mult : ℚ := if funding_long_signal then 2.0 else 1.5
        some { direction := .long, entry := f.price,
               stop := f.price - f.atr_value * sl_mult,
               target := f.price + f.atr_value * tp_mult }
    else if f.ema_fast_slope < -0.0008 ∧ f.ema_slow_slope < -0.0002 then
      if ¬(short_momentum ∨ funding_short_signal) then none
      else
        let sl_mult : ℚ := if funding_short_signal then 2.0 else 1.5
        some { direction := .short, entry := f.price,
               stop := f.price + f.atr_value * sl_mult,
               target := f.price - f.atr_value * tp_mult }
    else none

/-- `core/strategies/mean_reversion.py` `MeanReversionStrategy.generate`. -/
def meanReversionGenerate (f : MarketFeatures) : Option StrategySignal :=
  if 25 < f.adx then none
  else if 3.0 < f.volume_z then none
  else if f.atr_pct < 0.002 then none
  else if f.ret_5 < -0.006 then
    let is_strong := f.ret_5 < -0.012 ∧ f.ret_1 < -0.005
    let volume_boost := 1.2 < f.volume_z
    if ¬(is_strong ∨ volume_boost ∨ f.ret_1 < -0.003) then none
    else
      let tp_mult : ℚ := if is_strong then 1.8 else 1.0
      some { direction := .long, entry := f.price,
             stop := f.price - f.atr_value * 0.8,
             target := f.price + f.atr_value * tp_mult }
  else if 0.006 < f.ret_5 then
    let is_strong := 0.012 < f.ret_5 ∧ 0.005 < f.ret_1
    let volume_boost := 1.2 < f.volume_z
    if ¬(is_strong ∨ volume_boost ∨ 0.003 < f.ret_1) then none
    else
      let tp_mult : ℚ := if is_strong then 1.8 else 1.0
      some { direction := .short, entry := f.price,
             stop := f.price + f.atr_value * 0.8,
             target := f.price - f.atr_value * tp_mult }
  else none

/-- A signal generator as registered in the regime pool: an object with a
`name` and a `generate` method (`core/strategies/base.py`). -/
structure Strategy where
  name : String
  generate : MarketFeatures → Option StrategySignal

/-- `core/engine.py` `REGIME_POOL`. -/
def REGIME_POOL : MarketRegime → List Strategy
  | .TREND => [⟨"breakout", breakoutGenerate⟩, ⟨"trend", trendGenerate⟩]
  | .DISTRIBUTION => [⟨"mean_reversion", meanReversionGenerate⟩]
  | .SQUEEZE => []
  | .CHOP => []

/-! ## Performance-history store (`core/history_store.py`)

The store keeps, per `"strategy:regime"` string key, a `deque(maxlen=100)` of
trade records; each record is the dict `{"pnl": pnl}`, embedded as its single
rational `pnl` field. A bounded deque append keeps the most recent 100
elements, i.e. drops from the left whenever the length would exceed 100. -/

/-- The history store: every key maps to its current list of recorded pnls
(absent key ⇒ empty list, the `defaultdict` semantics). -/
def HistoryStore : Type := String → List ℚ

/-- The f-string key `f"{strategy}:{regime}"`. -/
def historyKey (strategy regime : String) : String :=
  strategy ++ ":" ++ regime

/-- `StrategyHistoryStore.add`: append to the keyed `deque(maxlen=100)`. -/
def storeAdd (h : HistoryStore) (strategy regime : String) (pnl : ℚ) :
    HistoryStore :=
  let k := historyKey strategy regime
  let l := h k ++ [pnl]
  fun k' => if k' = k then l.drop (l.length - 100) else h k'

/-- `StrategyHistoryStore.get`. -/
def storeGet (h : HistoryStore) (strategy regime : String) : List ℚ :=
  h (historyKey strategy regime)

/-- The empty store created by `StrategyHistoryStore.__init__`. -/
def emptyStore : HistoryStore := fun _ => []

/-! ## EV estimator (`core/ev_estimator.py`) -/

/-- Exact rational square-root approximation standing in for the source's
floating-point `math.sqrt`; exact on perfect squares, and only ever used in
the estimator's consistency term, whose numeric value no claim depends on. -/
def ratSqrt (q : ℚ) : ℚ :=
  (Nat.sqrt q.num.toNat : ℚ) / (Nat.sqrt q.den : ℚ)

/-- The bootstrap stats returned by `EVEstimator.estimate` when fewer than
`min_trades` outcomes are recorded. -/
def bootstrapStats (strategy regime : String) : StrategyStats :=
  { name := strategy, regime := regime, win_rate := 0.5, avg_win := 0.02,
    avg_loss := 0.01, ev := 0.002, confidence := 0.5 }

/-- `EVEstimator.estimate`. The inner `match` mirrors the source's
`pnl_list[0]` access, unreachable when `trades.length < min_trades` guards. -/
def estimate (strategy regime : String) (trades : List ℚ) (funding : ℚ)
    (fee : ℚ := 0.0004) (alpha : ℚ := 0.25) (min_trades : ℕ := 15) :
    StrategyStats :=
  if trades.length < min_trades then bootstrapStats strategy regime
  else
    match trades with
    | [] => bootstrapStats strategy regime
    | p0 :: rest =>
      let pnl_list := p0 :: rest
      let ewma := rest.foldl (fun e p => alpha * p + (1 - alpha) * e) p0
      let wins := pnl_list.filter (fun p => decide (0 < p))
      let losses := pnl_list.filter (fun p => decide (p ≤ 0))
      let win_rate : ℚ := (wins.length : ℚ) / (pnl_list.length : ℚ)
      let avg_win : ℚ :=
        if wins.length ≠ 0 then wins.sum / (wins.length : ℚ) else 0
      let avg_loss : ℚ :=
        if losses.length ≠ 0 then |losses.sum / (losses.length : ℚ)| else 0
      let total_cost := fee * 2 + |funding|
      let ev := ewma - total_cost
      let trade_confidence := min 1 ((trades.length : ℚ) / 100)
      let consistency : ℚ :=
        if 5 < pnl_list.length then
          let mean_pnl := pnl_list.sum / (pnl_list.length : ℚ)
          let variance :=
            (pnl_list.map (fun p => (p - mean_pnl) ^ 2)).sum /
              (pnl_list.length : ℚ)
          let std_pnl := ratSqrt variance
          1 / (1 + std_pnl / (|mean_pnl| + 0.0001))
        else 0.5
      let confidence := trade_confidence * (0.5 + 0.5 * consistency)
      let confidence := min 1 (max 0 confidence)
      let confidence :=
        if 0.8 < win_rate ∨ win_rate < 0.2 then confidence * 0.8
        else confidence
      { name := strategy, regime := regime, win_rate := win_rate,
        avg_win := avg_win, avg_loss := avg_loss, ev := ev,
        confidence := confidence }

/-! ## Strategy selector (`core/selector.py`)

`composite_score` multiplies `ev` by `confidence ** 0.5` and by the win-rate
and risk-reward bonuses. After the `ev > 0 and confidence > 0.2` filter every
score is positive, so comparing scores is equivalent to comparing their
squares — an exact rational quantity. The embedding selects by the squared
score, preserving the source's ordering without an irrational square root. -/

/-- The win-rate bonus factor of `composite_score`. -/
def winRateBonus (s : StrategyStats) : ℚ :=
  if 0.55 < s.win_rate then 1.2
  else if 0.50 < s.win_rate then 1.1
  else if s.win_rate < 0.40 then 0.8
  else 1

/-- The risk-reward bonus factor of `composite_score`. -/
def rrBonus (s : StrategyStats) : ℚ :=
  if 0 < s.avg_loss then
    if 2.0 < s.avg_win / s.avg_loss then 1.15
    else if 1.5 < s.avg_win / s.avg_loss then 1.05
    else 1
  else 1

/-- The square of `composite_score`: `(ev · √confidence · wb · rb)²`,
order-isomorphic to the score itself on the filtered candidates. -/
def compositeScoreSq (s : StrategyStats) : ℚ :=
  (s.ev * winRateBonus s * rrBonus s) ^ 2 * s.confidence

/-- The `ev > 0 and confidence > 0.2` candidate filter of `select_best`. -/
def validStat (s : StrategyStats) : Bool :=
  decide (0 < s.ev ∧ 0.2 < s.confidence)

/-- `core/selector.py` `select_best`: Python's `max(valid, key=score)`, which
returns the first candidate among those of maximal score. -/
def select_best (stats : List StrategyStats) : Option StrategyStats :=
  match stats.filter validStat with
  | [] => none
  | v :: vs =>
    some (vs.foldl
      (fun best s =>
        if compositeScoreSq best < compositeScoreSq s then s else best) v)

/-! ## Position sizer (`core/sizing.py`) -/

/-- `position_size`; `target_volatility` is accepted and unused, as in the
source. -/
def position_size (equity : ℚ) (stat : StrategyStats)
    (current_volatility : ℚ := 0.005) (target_volatility : ℚ := 0.40)
    (max_position_pct : ℚ := 0.50) : ℚ :=
  if stat.ev ≤ 0 then 0
  else
    let target_risk_per_trade : ℚ := 0.02
    let kelly_factor : ℚ :=
      if 0 < stat.avg_loss ∧ 0 < stat.avg_win then
        let b := stat.avg_win / stat.avg_loss
        let p := stat.win_rate
        let q := 1 - p
        let kelly := if 0 < b then (b * p - q) / b else 0
        max 0.5 (min (kelly * 0.5) 1.5)
      else 1
    let adjusted_risk := target_risk_per_trade * kelly_factor * stat.confidence
    let estimated_sl_pct := 1.5 * current_volatility
    let estimated_sl_pct := if estimated_sl_pct = 0 then 0.01
      else estimated_sl_pct
    min (equity * adjusted_risk / estimated_sl_pct) (equity * max_position_pct)

/-- The size formula as the specification words it (§4.6), for comparison
with `position_size`: the stop-distance divisor is `1.5 × volatility`
"floored at 0.01", i.e. never smaller than 0.01. -/
def specPositionSize (equity : ℚ) (stat : StrategyStats)
    (current_volatility : ℚ) : ℚ :=
  if stat.ev ≤ 0 then 0
  else
    let target_risk_per_trade : ℚ := 0.02
    let kelly_factor : ℚ :=
      if 0 < stat.avg_loss ∧ 0 < stat.avg_win then
        let b := stat.avg_win / stat.avg_loss
        let p := stat.win_rate
        let q := 1 - p
        let kelly := if 0 < b then (b * p - q) / b else 0
        max 0.5 (min (kelly * 0.5) 1.5)
      else 1
    let adjusted_risk := target_risk_per_trade * kelly_factor * stat.confidence
    let estimated_sl_pct := max (1.5 * current_volatility) 0.01
    min (equity * adjusted_risk / estimated_sl_pct) (equity * 0.50)

/-! ## Decision engine (`core/engine.py`) -/

/-- The mutable state of a `TradingEngine`: the history store and the
per-strategy cooldown counters (absent key ⇒ 0). -/
structure EngineState where
  history : HistoryStore
  cooldown : String → ℕ

/-- `TradingEngine.__init__`. -/
def freshEngine : EngineState :=
  { history := emptyStore, cooldown := fun _ => 0 }

/-- Point update of a string-keyed counter map. -/
def updateCounter (cd : String → ℕ) (k : String) (v : ℕ) : String → ℕ :=
  fun k' => if k' = k then v else cd k'

/-- `TradingEngine.on_trade_close`. -/
def onTradeClose (st : EngineState) (strategy regime : String) (pnl : ℚ) :
    EngineState :=
  let st := { st with history := storeAdd st.history strategy regime pnl }
  if pnl < 0 then
    { st with
      cooldown := updateCounter st.cooldown strategy (st.cooldown strategy + 3) }
  else st

/-- The `for s in strategies` loop body of `TradingEngine.step`: advance the
cooldown or evaluate the generator, collecting the produced stats. -/
def evalStrategy (hist : HistoryStore) (regime : MarketRegime)
    (f : MarketFeatures) (acc : List StrategyStats × (String → ℕ))
    (s : Strategy) : List StrategyStats × (String → ℕ) :=
  let (stats, cd) := acc
  if 0 < cd s.name then
    (stats, updateCounter cd s.name (cd s.name - 1))
  else
    match s.generate f with
    | none => (stats, cd)
    | some signal =>
      let trades := storeGet hist s.name regime.str
      let stat := estimate s.name regime.str trades f.funding_rate
      (stats ++ [{ stat with signal := some signal }], cd)

/-- The full strategy-pool evaluation pass of `TradingEngine.step`. -/
def evalPool (pool : List Strategy) (st : EngineState) (f : MarketFeatures)
    (regime : MarketRegime) : List StrategyStats × (String → ℕ) :=
  pool.foldl (evalStrategy st.history regime f) ([], st.cooldown)

/-- The decision dict returned by `TradingEngine.step`. -/
structure Decision where
  strategy : String
  regime : String
  size : ℚ
  ev : ℚ
  signal : Option StrategySignal
deriving DecidableEq, Repr

/-- `TradingEngine.step`: classify the regime, evaluate the pool, select,
size, and emit at most one decision; returns the decision and the updated
engine state. -/
def engineStep (st : EngineState) (f : MarketFeatures) (equity : ℚ) :
    Option Decision × EngineState :=
  let regime := detect_regime f
  let pool := REGIME_POOL regime
  let (stats, cd) := evalPool pool st f regime
  let st' := { st with cooldown := cd }
  match select_best stats with
  | none => (none, st')
  | some best =>
    let size := position_size equity best f.atr_pct
    if size ≤ 0 then (none, st')
    else
      (some { strategy := best.name, regime := best.regime, size := size,
              ev := best.ev, signal := best.signal }, st')

/-! ## Backtest simulator (`backtest_engine.py`)

The simulator replays candles through the engine. CSV loading, the indicator
pipeline and the warmup trim are out of scope (§1); the replay input is an
ordered candle sequence, each candle exposing its `low`/`high`/`close` and
the derived feature snapshot (§6), with the per-candle mock funding rate
already part of the snapshot. -/

/-- One replay candle: the fields of `run`'s per-row processing. -/
structure Candle where
  low : ℚ
  high : ℚ
  close : ℚ
  features : MarketFeatures

/-- The open position dict built by `_execute_entry`. -/
structure Position where
  strategy : String
  regime : String
  size : ℚ
  direction : Direction
  entry : ℚ
  stop : ℚ
  target : ℚ
  open_time : ℚ
deriving DecidableEq, Repr

/-- A recorded trade, as appended to `self.trades` in `_check_exit`. -/
structure TradeRec where
  direction : Direction
  entry : ℚ
  exit : ℚ
  pnl : ℚ
  reason : String
  strategy : String
deriving DecidableEq, Repr

/-- The state of a `BacktestEngine` instance. `entry_costs` is a
specification ghost accumulating the entry commissions subtracted from
equity in `_execute_entry`; it influences no behaviour. -/
structure SimState where
  initial_equity : ℚ
  commission : ℚ
  slippage : ℚ
  equity : ℚ
  engine : EngineState
  position : Option Position
  trades : List TradeRec
  equity_curve : List ℚ
  entry_costs : ℚ

/-- `BacktestEngine.__init__` with its default arguments. -/
def initSim (initial_equity : ℚ := 10000) (commission : ℚ := 0.0004)
    (slippage : ℚ := 0.0002) : SimState :=
  { initial_equity := initial_equity, commission := commission,
    slippage := slippage, equity := initial_equity, engine := freshEngine,
    position := none, trades := [], equity_curve := [initial_equity],
    entry_costs := 0 }

/-- The trigger evaluation of `_check_exit`: the exit price and reason when
the candle closes the position, `none` when the position is held. -/
def exitTrigger (slippage : ℚ) (p : Position) (low high : ℚ) :
    Option (ℚ × String) :=
  match p.direction with
  | .long =>
    if low ≤ p.stop then some (p.stop * (1 - slippage), "SL")
    else if p.target ≤ high then some (p.target * (1 - slippage), "TP")
    else none
  | .short =>
    if p.stop ≤ high then some (p.stop * (1 + slippage), "SL")
    else if low ≤ p.target then some (p.target * (1 + slippage), "TP")
    else none

/-- `BacktestEngine._check_exit`. -/
def checkExit (st : SimState) (low high close : ℚ) : SimState :=
  match st.position with
  | none => st
  | some p =>
    match exitTrigger st.slippage p low high with
    | none => st
    | some (exit_price, reason) =>
      let raw_pnl :=
        match p.direction with
        | .long => (exit_price - p.entry) / p.entry * p.size
        | .short => (p.entry - exit_price) / p.entry * p.size
      let comm := p.size * st.commission
      let net_pnl := raw_pnl - comm
      { st with
        equity := st.equity + net_pnl,
        trades := st.trades ++
          [{ direction := p.direction, entry := p.entry, exit := exit_price,
             pnl := net_pnl, reason := reason, strategy := p.strategy }],
        engine := onTradeClose st.engine p.strategy p.regime net_pnl,
        position := none }

/-- `BacktestEngine._execute_entry`. The source indexes `decision['signal']`
unconditionally; the `none` branch is unreachable because `step` always
attaches a signal to an emitted decision. -/
def executeEntry (st : SimState) (d : Decision) (price : ℚ) : SimState :=
  match d.signal with
  | none => st
  | some signal =>
    let entry_price :=
      match signal.direction with
      | .long => price * (1 + st.slippage)
      | .short => price * (1 - st.slippage)
    let cost := d.size * st.commission
    { st with
      equity := st.equity - cost,
      entry_costs := st.entry_costs + cost,
      position := some
        { strategy := d.strategy, regime := d.regime, size := d.size,
          direction := signal.direction, entry := entry_price,
          stop := signal.stop, target := signal.target,
          open_time := st.equity_curve.getLastD 0 } }

/-- The per-candle body of `BacktestEngine.run`: exit check, then a decision
step while flat, then the unconditional equity-curve append. -/
def simStep (st : SimState) (c : Candle) : SimState :=
  let st1 := checkExit st c.low c.high c.close
  let st2 :=
    match st1.position with
    | some _ => st1
    | none =>
      match engineStep st1.engine c.features st1.equity with
      | (some d, eng') => executeEntry { st1 with engine := eng' } d c.close
      | (none, eng') => { st1 with engine := eng' }
  { st2 with equity_curve := st2.equity_curve ++ [st2.equity] }

/-- The candle loop of `BacktestEngine.run` over the post-warmup sequence. -/
def runSim (st : SimState) (candles : List Candle) : SimState :=
  candles.foldl simStep st

/-! ## Concrete inputs used by the scenario theorems -/

/-- The §8 scenario snapshot: adx 30, atr_pct 0.01, volume_z 1.5, both EMA
slopes 0.001, zero funding, ret_1 0.001, ret_5 0.004, hurst at its 0.5
default; price and absolute ATR are left free. -/
def scenFeatures (price atrv : ℚ) : MarketFeatures :=
  { price := price, atr_pct := 0.01, atr_value := atrv, adx := 30,
    ema_fast_slope := 0.001, ema_slow_slope := 0.001, volume_z := 1.5,
    funding_rate := 0, ret_1 := 0.001, ret_5 := 0.004, hurst := 0.5 }

/-- A snapshot with atr_pct 0.005 and adx 17: CHOP by the specification's
rule list, DISTRIBUTION by the implemented classifier. -/
def fC2 : MarketFeatures :=
  { price := 100, atr_pct := 0.005, atr_value := 0.5, adx := 17,
    ema_fast_slope := 0, ema_slow_slope := 0, volume_z := 0,
    funding_rate := 0, ret_1 := 0, ret_5 := 0, hurst := 0.5 }

/-- A quiet snapshot classified CHOP, whose (empty) strategy pool produces no
decision. -/
def fChop : MarketFeatures :=
  { price := 94, atr_pct := 0.004, atr_value := 0.4, adx := 10,
    ema_fast_slope := 0, ema_slow_slope := 0, volume_z := 0,
    funding_rate := 0, ret_1 := 0, ret_5 := 0, hurst := 0.5 }

/-- A two-candle replay: the first candle triggers a long breakout entry at
close 100, the second gaps down through the stop and closes the trade. -/
def c3candles : List Candle :=
  [ { low := 99, high := 101, close := 100, features := scenFeatures 100 1 },
    { low := 90, high := 95, close := 94, features := fChop } ]

/-! ## Claim C2 — regime classifier rule list -/

/-- Claim C2, counterexample: on `fC2` the specification's ordered rule list
(atr_pct < 0.006 ∧ adx < 18 first) yields CHOP, but `detect_regime` yields
DISTRIBUTION — the implemented classifier checks SQUEEZE first with a 2.0
volume threshold, classifies TREND by hurst > 0.6 or adx > 25, then low
hurst, then a stricter CHOP rule (adx < 20 ∧ atr_pct < 0.005). -/
theorem c2_spec_rule_list_counterexample :
    firstMatch specRegimeRules .DISTRIBUTION fC2 = .CHOP ∧
    detect_regime fC2 = .DISTRIBUTION ∧
    detect_regime fC2 ≠ firstMatch specRegimeRules .DISTRIBUTION fC2 := by
  decide

/-- Claim C2, amended: the classifier is a first-match-wins ordered rule list
over a FeatureSnapshot, with the implemented rules and order: (1) atr_pct >
0.015 ∧ volume_z > 2.0 yields SQUEEZE; (2) hurst > 0.6 ∨ adx > 25 yields
TREND; (3) hurst < 0.45 yields DISTRIBUTION; (4) adx < 20 ∧ atr_pct < 0.005
yields CHOP; (5) otherwise DISTRIBUTION — for every snapshot the classifier
returns exactly the regime of the first rule whose condition holds. -/
theorem c2_regime_rule_list_amended (f : MarketFeatures) :
    detect_regime f = firstMatch regimeRules .DISTRIBUTION f := by
  simp only [detect_regime, regimeRules, firstMatch, decide_eq_true_eq]

/-! ## Claim C5 — history capacity -/

/-- Sequential insertion of a list of outcomes under one key. -/
def storeAddList (h : HistoryStore) (s r : String) (ts : List ℚ) :
    HistoryStore :=
  ts.foldl (fun h t => storeAdd h s r t) h

/-- An arbitrary interleaving of `add` operations, each a
(strategy, regime, pnl) triple, applied to the fresh store. -/
def applyOps (ops : List (String × String × ℚ)) : HistoryStore :=
  ops.foldl (fun h o => storeAdd h o.1 o.2.1 o.2.2) emptyStore

lemma storeAdd_get_key (h : HistoryStore) (s r : String) (t : ℚ) :
    (storeAdd h s r t) (historyKey s r) =
      (h (historyKey s r) ++ [t]).drop
        ((h (historyKey s r)).length + 1 - 100) := by
  simp [storeAdd]

lemma storeAdd_get_ne (h : HistoryStore) (s r : String) (t : ℚ) (k : String)
    (hkey : k ≠ historyKey s r) : (storeAdd h s r t) k = h k := by
  simp [storeAdd, hkey]

lemma storeAdd_length_le (h : HistoryStore) (s r : String) (t : ℚ) (k : String)
    (hk : (h k).length ≤ 100) : ((storeAdd h s r t) k).length ≤ 100 := by
  by_cases hkey : k = historyKey s r
  · rw [hkey, storeAdd_get_key]
    simp only [List.length_drop, List.length_append, List.length_singleton]
    omega
  · rw [storeAdd_get_ne h s r t k hkey]; exact hk

lemma applyOps_aux_length_le (ops : List (String × String × ℚ)) :
    ∀ (h : HistoryStore), (∀ k, (h k).length ≤ 100) →
      ∀ k, ((ops.foldl (fun h o => storeAdd h o.1 o.2.1 o.2.2) h) k).length ≤ 100 := by
  induction ops with
  | nil => intro h hh k; simpa using hh k
  | cons o rest ih =>
    intro h hh k
    simp only [List.foldl_cons]
    exact ih _ (fun k' => storeAdd_length_le h o.1 o.2.1 o.2.2 k' (hh k')) k

lemma storeAddList_get (s r : String) :
    ∀ (ts : List ℚ) (h : HistoryStore),
      (h (historyKey s r)).length ≤ 100 →
      storeGet (storeAddList h s r ts) s r =
        (h (historyKey s r) ++ ts).drop
          ((h (historyKey s r)).length + ts.length - 100) := by
  intro ts
  induction ts with
  | nil =>
    intro h hle
    simp only [storeAddList, List.foldl_nil, storeGet, List.append_nil,
      List.length_nil, Nat.add_zero]
    rw [Nat.sub_eq_zero_of_le hle, List.drop_zero]
  | cons t rest ih =>
    intro h hle
    have hstep : storeAddList h s r (t :: rest) =
        storeAddList (storeAdd h s r t) s r rest := by
      simp [storeAddList]
    rw [hstep]
    have hlen : ((storeAdd h s r t) (historyKey s r)).length ≤ 100 :=
      storeAdd_length_le h s r t _ (by exact hle)
    rw [ih (storeAdd h s r t) hlen, storeAdd_get_key]
    have hd : (h (historyKey s r)).length + 1 - 100 ≤
        (h (historyKey s r) ++ [t]).length := by
      rw [List.length_append, List.length_singleton]; omega
    rw [← List.drop_append_of_le_length hd, List.drop_drop]
    rw [List.append_assoc, List.singleton_append]
    congr 1
    simp only [List.length_drop, List.length_append, List.length_singleton,
      List.length_cons, List.length_nil]
    omega

/-- Claim C5 (confirmed): the history store is a fixed-capacity-100 FIFO per
(strategy, regime) key — after inserting any 150 outcomes under one key,
`get` returns exactly 100 entries, the 100 most recently inserted in
insertion order (the original list with its first 50 entries dropped); and
under any sequence of `add` operations, no key's sequence exceeds 100. -/
theorem c5_history_capacity :
    (∀ (ts : List ℚ) (s r : String), ts.length = 150 →
      storeGet (storeAddList emptyStore s r ts) s r = ts.drop 50 ∧
      (storeGet (storeAddList emptyStore s r ts) s r).length = 100) ∧
    (∀ (ops : List (String × String × ℚ)) (s r : String),
      (storeGet (applyOps ops) s r).length ≤ 100) := by
  constructor
  · intro ts s r hlen
    have h := storeAddList_get s r ts emptyStore (by simp [emptyStore])
    have hget : storeGet (storeAddList emptyStore s r ts) s r = ts.drop 50 := by
      rw [h]; simp [emptyStore, hlen]
    exact ⟨hget, by rw [hget]; simp [List.length_drop, hlen]⟩
  · intro ops s r
    exact applyOps_aux_length_le ops emptyStore (by simp [emptyStore]) _

/-- Claim C5 witness: inserting 150 copies of outcome 1 under key
("s", "r") leaves exactly the last 100 of them, and the capacity bound is
instantiated on that same store. -/
theorem c5_history_capacity_witness :
    (List.replicate 150 (1 : ℚ)).length = 150 ∧
    storeGet (storeAddList emptyStore "s" "r" (List.replicate 150 (1 : ℚ)))
        "s" "r" = (List.replicate 150 (1 : ℚ)).drop 50 ∧
    (storeGet (storeAddList emptyStore "s" "r" (List.replicate 150 (1 : ℚ)))
        "s" "r").length = 100 := by
  refine ⟨by simp, ?_, ?_⟩
  · exact (c5_history_capacity.1 (List.replicate 150 (1 : ℚ)) "s" "r"
      (by simp)).1
  · exact (c5_history_capacity.1 (List.replicate 150 (1 : ℚ)) "s" "r"
      (by simp)).2

/-! ## Claim C8 — position-sizer divisor -/

/-- Stats with positive EV, zero average loss and low confidence: the Kelly
branch is skipped and the cap does not bind, exposing the divisor. -/
def statC8 : StrategyStats :=
  { name := "x", regime := "trend", win_rate := 0.5, avg_win := 0.02,
    avg_loss := 0, ev := 0.002, confidence := 0.1 }

/-- Claim C8, counterexample: at equity 10000, stats `statC8` (ev 0.002 > 0)
and volatility 0.004, the code divides by 1.5 × 0.004 = 0.006 < 0.01 and
returns 10000/3 ≈ 3333.33, while the claimed floored divisor 0.01 would give
2000 — the source replaces the divisor by 0.01 only when it is exactly 0,
not whenever it is below 0.01. -/
theorem c8_divisor_counterexample :
    position_size 10000 statC8 0.004 = 10000 / 3 ∧
    specPositionSize 10000 statC8 0.004 = 2000 ∧
    position_size 10000 statC8 0.004 ≠ specPositionSize 10000 statC8 0.004 := by
  decide

/-- The Kelly factor of `position_size`, spelled out: half-Kelly clamped to
[0.5, 1.5] whenever both averages are positive, else 1. -/
def kellyFactor (stat : StrategyStats) : ℚ :=
  if 0 < stat.avg_loss ∧ 0 < stat.avg_win then
    let b := stat.avg_win / stat.avg_loss
    let p := stat.win_rate
    let q := 1 - p
    let kelly := if 0 < b then (b * p - q) / b else 0
    max 0.5 (min (kelly * 0.5) 1.5)
  else 1

/-- Claim C8, amended: for every equity, stats with ev > 0 and volatility,
the divisor is 1.5 × volatility, replaced by 0.01 only when that product is
exactly 0, and the size is equity × (0.02 × kelly × confidence) / divisor,
capped at equity × 0.5. -/
theorem c8_sizer_amended (equity : ℚ) (stat : StrategyStats) (vol : ℚ)
    (hev : 0 < stat.ev) :
    position_size equity stat vol =
      min (equity * (0.02 * kellyFactor stat * stat.confidence) /
            (if 1.5 * vol = 0 then 0.01 else 1.5 * vol))
        (equity * 0.50) := by
  rw [position_size, if_neg (not_le.mpr hev)]
  rfl

/-- Claim C8 witness: the amended size formula instantiated at equity 10000,
stats `statC8` and volatility 0.004. -/
theorem c8_sizer_amended_witness :
    0 < statC8.ev ∧
    position_size 10000 statC8 0.004 =
      min ((10000 : ℚ) * (0.02 * kellyFactor statC8 * statC8.confidence) /
            (if (1.5 : ℚ) * 0.004 = 0 then 0.01 else 1.5 * 0.004))
        (10000 * 0.50) :=
  ⟨by decide, c8_sizer_amended 10000 statC8 0.004 (by decide)⟩

/-! ## Claim C9 — trend-following target multiple -/

/-- The target ATR-multiple actually computed by `TrendStrategy.generate`:
base 3.0, +1.0 when adx > 40, +0.5 when either funding tailwind condition
holds — regardless of the signal's direction — capped at 6.0. -/
def trendTpMult (f : MarketFeatures) : ℚ :=
  min (3.0 + (if 40 < f.adx then 1.0 else 0)
      + (if f.funding_rate < -0.0001 ∨ 0.0002 < f.funding_rate then 0.5
         else 0))
    6.0

/-- A snapshot producing a long trend signal while only the SHORT funding
tailwind (funding_rate 0.0003 > 0.0002) holds. -/
def fC9 : MarketFeatures :=
  { price := 100, atr_pct := 0.01, atr_value := 1, adx := 35,
    ema_fast_slope := 0.001, ema_slow_slope := 0.0005, volume_z := 0,
    funding_rate := 0.0003, ret_1 := 0.001, ret_5 := 0.002, hurst := 0.5 }

/-- The long signal `TrendStrategy.generate` produces on `fC9`, with target
100 + 1 × 3.5: the +0.5 funding bonus was applied although the long
tailwind (funding_rate < −0.0001) does not hold. -/
def sigC9 : StrategySignal :=
  { direction := .long, entry := 100, stop := 197 / 2, target := 207 / 2 }

/-- Claim C9, counterexample: on `fC9` the generator emits a long signal
whose target is 103.5 = price + atr × 3.5 — the +0.5 bonus fired from the
short-side tailwind — whereas the claim's direction-dependent formula gives
multiple 3.0 (no adx bonus, no long tailwind) and target 103. -/
theorem c9_funding_bonus_counterexample :
    trendGenerate fC9 = some sigC9 ∧
    sigC9.direction = .long ∧
    ¬ fC9.funding_rate < -0.0001 ∧
    ¬ 40 < fC9.adx ∧
    sigC9.target ≠ fC9.price + fC9.atr_value * 3.0 := by
  decide

/-- Claim C9, amended: for every signal the TrendFollowing generator
produces, the target ATR-multiple equals base 3.0, plus 1.0 when adx > 40,
plus 0.5 exactly when either funding tailwind condition holds (funding_rate
< −0.0001 or funding_rate > 0.0002), irrespective of the produced
direction, capped at 6.0 — the target sits that multiple of atr_value above
the price for a long and below it for a short. -/
theorem c9_trend_target_amended (f : MarketFeatures) (sig : StrategySignal)
    (h : trendGenerate f = some sig) :
    (sig.direction = .long →
      sig.target = f.price + f.atr_value * trendTpMult f) ∧
    (sig.direction = .short →
      sig.target = f.price - f.atr_value * trendTpMult f) := by
  simp only [trendGenerate] at h
  split_ifs at h <;>
    first
      | exact Option.noConfusion h
      | (injection h with h
         subst h
         refine ⟨fun hdir => ?_, fun hdir => ?_⟩ <;>
           first
             | exact Direction.noConfusion hdir
             | (simp only [trendTpMult]
                split_ifs <;> norm_num))

/-- Claim C9 witness: the amended target formula instantiated on `fC9` and
its produced long signal. -/
theorem c9_trend_target_amended_witness :
    trendGenerate fC9 = some sigC9 ∧
    sigC9.target = fC9.price + fC9.atr_value * trendTpMult fC9 :=
  ⟨by decide, (c9_trend_target_amended fC9 sigC9 (by decide)).1 (by decide)⟩

/-! ## Claim C7 — intrabar exit priority -/

/-- Claim C7 (confirmed): for an open position the stop is checked before the
target — whenever the stop condition holds (low ≤ stop for a long, high ≥
stop for a short), the candle closes the position at the stop price adjusted
adversely by the configured slippage, recording exactly one trade with
reason "SL", with no constraint on whether the target condition also held. -/
theorem c7_stop_priority (st : SimState) (p : Position) (low high close : ℚ)
    (hp : st.position = some p) :
    (p.direction = .long → low ≤ p.stop →
      (checkExit st low high close).position = none ∧
      (checkExit st low high close).trades = st.trades ++
        [{ direction := p.direction, entry := p.entry,
           exit := p.stop * (1 - st.slippage),
           pnl := (p.stop * (1 - st.slippage) - p.entry) / p.entry * p.size
             - p.size * st.commission,
           reason := "SL", strategy := p.strategy }]) ∧
    (p.direction = .short → p.stop ≤ high →
      (checkExit st low high close).position = none ∧
      (checkExit st low high close).trades = st.trades ++
        [{ direction := p.direction, entry := p.entry,
           exit := p.stop * (1 + st.slippage),
           pnl := (p.entry - p.stop * (1 + st.slippage)) / p.entry * p.size
             - p.size * st.commission,
           reason := "SL", strategy := p.strategy }]) := by
  refine ⟨fun hdir hstop => ?_, fun hdir hstop => ?_⟩ <;>
    (unfold checkExit exitTrigger
     rw [hp, hdir]
     simp [hstop, hdir])

/-- The open long position of the §8 exit scenario: entry 100, stop 98,
target 106. -/
def pScen : Position :=
  { strategy := "s", regime := "trend", size := 1000, direction := .long,
    entry := 100, stop := 98, target := 106, open_time := 0 }

/-- A simulator state holding `pScen` open, otherwise fresh with default
commission 0.0004 and slippage 0.0002. -/
def stScen : SimState :=
  { initSim with position := some pScen }

/-- Claim C7 witness: the candle low 97, high 101 against `pScen` exits at
the stop adjusted adversely by slippage, 98 × (1 − 0.0002). -/
theorem c7_stop_priority_witness :
    pScen.direction = .long ∧ (97 : ℚ) ≤ pScen.stop ∧
    ((checkExit stScen 97 101 100).position = none ∧
      (checkExit stScen 97 101 100).trades = stScen.trades ++
        [{ direction := pScen.direction, entry := pScen.entry,
           exit := pScen.stop * (1 - stScen.slippage),
           pnl := (pScen.stop * (1 - stScen.slippage) - pScen.entry)
             / pScen.entry * pScen.size - pScen.size * stScen.commission,
           reason := "SL", strategy := pScen.strategy }]) :=
  ⟨rfl, by decide,
    (c7_stop_priority stScen pScen 97 101 100 rfl).1 rfl (by decide)⟩

/-! ## Claim C6 — simulator state and equity-curve length -/

/-- The single quiet candle used for the curve-length counterexample. -/
def cChop : Candle :=
  { low := 90, high := 95, close := 94, features := fChop }

lemma checkExit_curve (st : SimState) (low high close : ℚ) :
    (checkExit st low high close).equity_curve = st.equity_curve := by
  unfold checkExit
  cases hp : st.position with
  | none => rfl
  | some p =>
    cases ht : exitTrigger st.slippage p low high with
    | none => simp only [ht]
    | some pr => obtain ⟨ep, reason⟩ := pr; simp only [ht]

lemma checkExit_config (st : SimState) (low high close : ℚ) :
    (checkExit st low high close).initial_equity = st.initial_equity ∧
    (checkExit st low high close).commission = st.commission ∧
    (checkExit st low high close).slippage = st.slippage := by
  unfold checkExit
  cases hp : st.position with
  | none => exact ⟨rfl, rfl, rfl⟩
  | some p =>
    cases ht : exitTrigger st.slippage p low high with
    | none => simp [ht]
    | some pr =>
      obtain ⟨ep, reason⟩ := pr
      simp [ht]

lemma executeEntry_curve (st : SimState) (d : Decision) (price : ℚ) :
    (executeEntry st d price).equity_curve = st.equity_curve := by
  unfold executeEntry
  cases d.signal with
  | none => rfl
  | some sig => rfl

lemma simStep_curve_length (st : SimState) (c : Candle) :
    (simStep st c).equity_curve.length = st.equity_curve.length + 1 := by
  unfold simStep
  cases hpos : (checkExit st c.low c.high c.close).position with
  | some p =>
    simp only [hpos, List.length_append, List.length_singleton,
      checkExit_curve]
  | none =>
    cases hstep : engineStep (checkExit st c.low c.high c.close).engine
        c.features (checkExit st c.low c.high c.close).equity with
    | mk od eng =>
      cases od with
      | none =>
        simp only [hpos, hstep, List.length_append, List.length_singleton,
          checkExit_curve]
      | some d =>
        simp only [hpos, hstep, List.length_append, List.length_singleton,
          executeEntry_curve, checkExit_curve]

lemma runSim_curve_length (cs : List Candle) :
    ∀ st : SimState,
      (runSim st cs).equity_curve.length =
        st.equity_curve.length + cs.length := by
  induction cs with
  | nil => intro st; simp [runSim]
  | cons c rest ih =>
    intro st
    show (runSim (simStep st c) rest).equity_curve.length = _
    rw [ih (simStep st c), simStep_curve_length]
    simp only [List.length_cons]
    omega

/-- Claim C6, counterexample: after processing one candle the equity curve
has two entries, not one — `__init__` seeds the curve with the initial
equity before any candle is processed, so its length is always the candle
count plus one. -/
theorem c6_curve_length_counterexample :
    (runSim initSim [cChop]).equity_curve.length = 2 ∧
    ([cChop] : List Candle).length = 1 ∧
    (runSim initSim [cChop]).equity_curve.length ≠
      ([cChop] : List Candle).length := by
  refine ⟨?_, rfl, ?_⟩ <;> decide

/-- Claim C6, amended: at every processed candle the simulator is in exactly
one of the states FLAT (`position = none`) or IN_POSITION (`position = some
p`), never both; and the equity curve — appended unconditionally every
candle — has length equal to the number of candles processed plus one, the
extra entry being the initial equity recorded at construction. -/
theorem c6_simulator_state_amended (e c s : ℚ) (cs : List Candle) :
    (runSim (initSim e c s) cs).equity_curve.length = cs.length + 1 ∧
    Xor' ((runSim (initSim e c s) cs).position = none)
      (∃ p, (runSim (initSim e c s) cs).position = some p) := by
  constructor
  · rw [runSim_curve_length cs (initSim e c s)]
    simp [initSim, Nat.add_comm]
  · cases hpos : (runSim (initSim e c s) cs).position with
    | none => exact Or.inl ⟨rfl, by simp⟩
    | some p => exact Or.inr ⟨⟨p, rfl⟩, by simp⟩

/-! ## Claim C3 — ledger identity -/

/-- The ledger relation actually maintained by the simulator: recorded net
PnLs account for the equity change up to the entry commissions, which are
subtracted from equity at entry but excluded from every recorded trade's
pnl. -/
def LedgerInv (st : SimState) : Prop :=
  (st.trades.map TradeRec.pnl).sum =
    st.equity - st.initial_equity + st.entry_costs

lemma checkExit_ledger (st : SimState) (low high close : ℚ)
    (h : LedgerInv st) : LedgerInv (checkExit st low high close) := by
  unfold checkExit
  cases hp : st.position with
  | none => exact h
  | some p =>
    cases ht : exitTrigger st.slippage p low high with
    | none => simp only [ht]; exact h
    | some pr =>
      obtain ⟨ep, reason⟩ := pr
      simp only [ht]
      unfold LedgerInv at h ⊢
      simp only [List.map_append, List.sum_append, List.map_cons,
        List.map_nil, List.sum_cons, List.sum_nil]
      rw [h]
      ring

lemma executeEntry_ledger (st : SimState) (d : Decision) (price : ℚ)
    (h : LedgerInv st) : LedgerInv (executeEntry st d price) := by
  unfold executeEntry
  cases hs : d.signal with
  | none => exact h
  | some sig =>
    cases sig.direction <;>
      (unfold LedgerInv at h ⊢
       simp only []
       rw [h]
       ring)

lemma simStep_ledger (st : SimState) (c : Candle) (h : LedgerInv st) :
    LedgerInv (simStep st c) := by
  unfold simStep
  have h1 : LedgerInv (checkExit st c.low c.high c.close) :=
    checkExit_ledger st c.low c.high c.close h
  cases hpos : (checkExit st c.low c.high c.close).position with
  | some p =>
    simp only [hpos]
    exact h1
  | none =>
    cases hstep : engineStep (checkExit st c.low c.high c.close).engine
        c.features (checkExit st c.low c.high c.close).equity with
    | mk od eng =>
      cases od with
      | none =>
        simp only [hpos, hstep]
        exact h1
      | some d =>
        simp only [hpos, hstep]
        exact executeEntry_ledger _ d c.close h1

lemma executeEntry_init (st : SimState) (d : Decision) (price : ℚ) :
    (executeEntry st d price).initial_equity = st.initial_equity := by
  unfold executeEntry
  cases hs : d.signal with
  | none => rfl
  | some sig => simp only [hs]

lemma simStep_init_eq (st : SimState) (c : Candle) :
    (simStep st c).initial_equity = st.initial_equity := by
  have hce := (checkExit_config st c.low c.high c.close).1
  unfold simStep
  cases hpos : (checkExit st c.low c.high c.close).position with
  | some p => simp only [hpos]; exact hce
  | none =>
    cases hstep : engineStep (checkExit st c.low c.high c.close).engine
        c.features (checkExit st c.low c.high c.close).equity with
    | mk od eng =>
      cases od with
      | none => simp only [hpos, hstep]; exact hce
      | some d =>
        simp only [hpos, hstep]
        rw [executeEntry_init]
        exact hce

lemma runSim_ledger (cs : List Candle) :
    ∀ st : SimState, LedgerInv st → LedgerInv (runSim st cs) := by
  induction cs with
  | nil => intro st h; exact h
  | cons c rest ih =>
    intro st h
    exact ih (simStep st c) (simStep_ledger st c h)

lemma runSim_init_eq (cs : List Candle) :
    ∀ st : SimState, (runSim st cs).initial_equity = st.initial_equity := by
  induction cs with
  | nil => intro st; rfl
  | cons c rest ih =>
    intro st
    show (runSim (simStep st c) rest).initial_equity = _
    rw [ih (simStep st c), simStep_init_eq]

/-- Claim C3, counterexample: on the concrete two-candle replay `c3candles`
— one breakout entry at the first candle, stopped out at the second — the
simulator records exactly one trade, yet the sum of recorded net PnLs does
not equal final equity minus initial equity, even in exact arithmetic: the
entry commission is subtracted from equity at `_execute_entry` but excluded
from the recorded trade's net pnl. -/
theorem c3_ledger_identity_counterexample :
    (runSim initSim c3candles).trades.length = 1 ∧
    ((runSim initSim c3candles).trades.map TradeRec.pnl).sum ≠
      (runSim initSim c3candles).equity - initSim.initial_equity ∧
    (runSim initSim c3candles).entry_costs ≠ 0 := by
  refine ⟨?_, ?_, ?_⟩ <;> decide

/-- Claim C3, amended: after the simulator processes any candle sequence,
the sum of all recorded net trade PnLs equals final equity minus initial
equity plus the total entry commissions paid (one per executed entry, equal
to size × commission), exactly, over exact arithmetic in the embedding. -/
theorem c3_ledger_identity_amended (e c s : ℚ) (cs : List Candle) :
    ((runSim (initSim e c s) cs).trades.map TradeRec.pnl).sum =
      (runSim (initSim e c s) cs).equity - e +
        (runSim (initSim e c s) cs).entry_costs := by
  have h0 : LedgerInv (initSim e c s) := by
    unfold LedgerInv initSim
    simp
  have h := runSim_ledger cs (initSim e c s) h0
  unfold LedgerInv at h
  rw [h, runSim_init_eq cs (initSim e c s)]
  rfl

/-! ## Engine pool-evaluation lemmas -/

lemma estimate_name (n r : String) (t : List ℚ) (fu : ℚ) :
    (estimate n r t fu).name = n := by
  unfold estimate bootstrapStats
  split_ifs with h
  · rfl
  · cases t with
    | nil => rfl
    | cons p0 rest => rfl

lemma evalStrategy_snd (hist : HistoryStore) (regime : MarketRegime)
    (f : MarketFeatures) (acc : List StrategyStats × (String → ℕ))
    (s : Strategy) :
    (evalStrategy hist regime f acc s).2 =
      if 0 < acc.2 s.name then
        updateCounter acc.2 s.name (acc.2 s.name - 1)
      else acc.2 := by
  obtain ⟨stats0, cd0⟩ := acc
  unfold evalStrategy
  by_cases hcd : 0 < cd0 s.name
  · simp [hcd]
  · simp only [hcd, if_neg, if_false]
    cases hg : s.generate f <;> simp [hg, hcd]

lemma evalStrategy_fst (hist : HistoryStore) (regime : MarketRegime)
    (f : MarketFeatures) (acc : List StrategyStats × (String → ℕ))
    (s : Strategy) :
    (evalStrategy hist regime f acc s).1 =
      if 0 < acc.2 s.name then acc.1
      else
        match s.generate f with
        | none => acc.1
        | some sig =>
          acc.1 ++ [{ estimate s.name regime.str
              (storeGet hist s.name regime.str) f.funding_rate with
            signal := some sig }] := by
  obtain ⟨stats0, cd0⟩ := acc
  unfold evalStrategy
  by_cases hcd : 0 < cd0 s.name
  · simp [hcd]
  · simp only [hcd, if_neg, if_false]
    cases hg : s.generate f <;> simp [hg, hcd]

lemma evalFold_mem (hist : HistoryStore) (regime : MarketRegime)
    (f : MarketFeatures) :
    ∀ (pool : List Strategy) (acc : List StrategyStats × (String → ℕ))
      (stat : StrategyStats),
      stat ∈ (pool.foldl (evalStrategy hist regime f) acc).1 →
      stat ∈ acc.1 ∨ ∃ s ∈ pool, ∃ sig, s.generate f = some sig ∧
        stat = { estimate s.name regime.str
            (storeGet hist s.name regime.str) f.funding_rate with
          signal := some sig } := by
  intro pool
  induction pool with
  | nil => intro acc stat h; exact Or.inl h
  | cons s rest ih =>
    intro acc stat h
    simp only [List.foldl_cons] at h
    rcases ih _ stat h with hmem | ⟨s', hs', sig, hgen, hstat⟩
    · rw [evalStrategy_fst] at hmem
      by_cases hcd : 0 < acc.2 s.name
      · rw [if_pos hcd] at hmem; exact Or.inl hmem
      · rw [if_neg hcd] at hmem
        cases hg : s.generate f with
        | none => rw [hg] at hmem; exact Or.inl hmem
        | some sig =>
          rw [hg] at hmem
          rcases List.mem_append.mp hmem with hmem | hmem
          · exact Or.inl hmem
          · refine Or.inr ⟨s, List.mem_cons_self s rest, sig, hg, ?_⟩
            simpa using hmem
    · exact Or.inr ⟨s', List.mem_cons_of_mem s hs', sig, hgen, hstat⟩

lemma breakoutGenerate_entry (f : MarketFeatures) (sig : StrategySignal)
    (h : breakoutGenerate f = some sig) : sig.entry = f.price := by
  simp only [breakoutGenerate] at h
  split_ifs at h <;>
    first
      | exact Option.noConfusion h
      | (injection h with h; subst h; rfl)

lemma trendGenerate_entry (f : MarketFeatures) (sig : StrategySignal)
    (h : trendGenerate f = some sig) : sig.entry = f.price := by
  simp only [trendGenerate] at h
  split_ifs at h <;>
    first
      | exact Option.noConfusion h
      | (injection h with h; subst h; rfl)

lemma meanReversionGenerate_entry (f : MarketFeatures) (sig : StrategySignal)
    (h : meanReversionGenerate f = some sig) : sig.entry = f.price := by
  simp only [meanReversionGenerate] at h
  split_ifs at h <;>
    first
      | exact Option.noConfusion h
      | (injection h with h; subst h; rfl)

lemma pool_entry (regime : MarketRegime) (s : Strategy)
    (hs : s ∈ REGIME_POOL regime) (f : MarketFeatures) (sig : StrategySignal)
    (h : s.generate f = some sig) : sig.entry = f.price := by
  cases regime <;>
    simp only [REGIME_POOL, List.mem_cons, List.not_mem_nil, or_false] at hs
  case TREND =>
    rcases hs with rfl | rfl
    · exact breakoutGenerate_entry f sig h
    · exact trendGenerate_entry f sig h
  case DISTRIBUTION =>
    rcases hs with rfl
    exact meanReversionGenerate_entry f sig h

lemma select_foldl_mem (vs : List StrategyStats) :
    ∀ v : StrategyStats,
      vs.foldl (fun best s =>
        if compositeScoreSq best < compositeScoreSq s then s else best) v ∈
      v :: vs := by
  induction vs with
  | nil => intro v; exact List.mem_singleton.mpr rfl
  | cons s rest ih =>
    intro v
    simp only [List.foldl_cons]
    rcases List.mem_cons.mp
        (ih (if compositeScoreSq v < compositeScoreSq s then s else v)) with
      heq | hmem
    · rw [heq]
      by_cases hlt : compositeScoreSq v < compositeScoreSq s
      · rw [if_pos hlt]; exact List.mem_cons_of_mem v (List.mem_cons_self s rest)
      · rw [if_neg hlt]; exact List.mem_cons_self v (s :: rest)
    · exact List.mem_cons_of_mem v (List.mem_cons_of_mem s hmem)

lemma select_best_mem (stats : List StrategyStats) (b : StrategyStats)
    (h : select_best stats = some b) : b ∈ stats := by
  unfold select_best at h
  cases hf : stats.filter validStat with
  | nil => rw [hf] at h; exact Option.noConfusion h
  | cons v vs =>
    rw [hf] at h
    injection h with h
    have hmem : b ∈ v :: vs := h ▸ select_foldl_mem vs v
    exact List.mem_of_mem_filter (hf ▸ hmem)

lemma engineStep_snd (st : EngineState) (f : MarketFeatures) (equity : ℚ) :
    (engineStep st f equity).2 =
      { st with cooldown :=
          (evalPool (REGIME_POOL (detect_regime f)) st f
            (detect_regime f)).2 } := by
  unfold engineStep
  rcases hpair : evalPool (REGIME_POOL (detect_regime f)) st f
      (detect_regime f) with ⟨stats, cd⟩
  simp only [hpair]
  cases hsel : select_best stats with
  | none => simp [hsel]
  | some best =>
    simp only [hsel]
    by_cases hsz : position_size equity best f.atr_pct ≤ 0
    · simp [hsz]
    · simp [hsz]

/-! ## Claim C10 — entry price equals snapshot price -/

/-- Claim C10 (confirmed): every non-null decision of `step` carries a
non-null signal whose entry equals the snapshot's price, and each of the
three generators, whenever it produces a signal, sets entry = price with no
limit-price offset. -/
theorem c10_entry_at_snapshot_price :
    (∀ (st : EngineState) (f : MarketFeatures) (equity : ℚ) (d : Decision),
      (engineStep st f equity).1 = some d →
      ∃ sig, d.signal = some sig ∧ sig.entry = f.price) ∧
    (∀ (f : MarketFeatures) (sig : StrategySignal),
      breakoutGenerate f = some sig → sig.entry = f.price) ∧
    (∀ (f : MarketFeatures) (sig : StrategySignal),
      trendGenerate f = some sig → sig.entry = f.price) ∧
    (∀ (f : MarketFeatures) (sig : StrategySignal),
      meanReversionGenerate f = some sig → sig.entry = f.price) := by
  refine ⟨?_, breakoutGenerate_entry, trendGenerate_entry,
    meanReversionGenerate_entry⟩
  intro st f equity d h
  unfold engineStep at h
  rcases hpair : evalPool (REGIME_POOL (detect_regime f)) st f
      (detect_regime f) with ⟨stats, cd⟩
  simp only [hpair] at h
  cases hsel : select_best stats with
  | none => rw [hsel] at h; exact Option.noConfusion h
  | some best =>
    simp only [hsel] at h
    by_cases hsz : position_size equity best f.atr_pct ≤ 0
    · rw [if_pos hsz] at h; exact Option.noConfusion h
    · rw [if_neg hsz] at h
      injection h with h
      have hbm : best ∈ ((REGIME_POOL (detect_regime f)).foldl
          (evalStrategy st.history (detect_regime f) f)
          ([], st.cooldown)).1 := by
        have heq : ((REGIME_POOL (detect_regime f)).foldl
            (evalStrategy st.history (detect_regime f) f)
            ([], st.cooldown)) = (stats, cd) := hpair
        rw [heq]
        exact select_best_mem stats best hsel
      rcases evalFold_mem st.history (detect_regime f) f
          (REGIME_POOL (detect_regime f)) ([], st.cooldown) best hbm with
        hnil | ⟨s, hs, sig, hgen, hstat⟩
      · exact absurd hnil (List.not_mem_nil best)
      · refine ⟨sig, ?_, pool_entry (detect_regime f) s hs f sig hgen⟩
        rw [← h, hstat]

/-! ## Claim C4 — cooldown behaviour -/

lemma evalFold_cd_of_notmem (hist : HistoryStore) (regime : MarketRegime)
    (f : MarketFeatures) (nm : String) :
    ∀ (pool : List Strategy) (acc : List StrategyStats × (String → ℕ)),
      (∀ s ∈ pool, s.name ≠ nm) →
      (pool.foldl (evalStrategy hist regime f) acc).2 nm = acc.2 nm := by
  intro pool
  induction pool with
  | nil => intro acc _; rfl
  | cons s rest ih =>
    intro acc hno
    simp only [List.foldl_cons]
    rw [ih (evalStrategy hist regime f acc s)
      (fun s' hs' => hno s' (List.mem_cons_of_mem s hs'))]
    rw [evalStrategy_snd]
    by_cases hcd : 0 < acc.2 s.name
    · rw [if_pos hcd]
      unfold updateCounter
      rw [if_neg (fun hh => hno s (List.mem_cons_self s rest) hh.symm)]
    · rw [if_neg hcd]

lemma evalFold_skip (hist : HistoryStore) (regime : MarketRegime)
    (f : MarketFeatures) (nm : String) :
    ∀ (pool : List Strategy) (acc : List StrategyStats × (String → ℕ)),
      0 < acc.2 nm →
      pool.countP (fun s => s.name == nm) = 1 →
      ((pool.foldl (evalStrategy hist regime f) acc).2 nm = acc.2 nm - 1 ∧
       ∀ stat ∈ (pool.foldl (evalStrategy hist regime f) acc).1,
         stat ∈ acc.1 ∨ stat.name ≠ nm) := by
  intro pool
  induction pool with
  | nil =>
    intro acc _ hcount
    rw [List.countP_nil] at hcount
    exact absurd hcount (by omega)
  | cons s rest ih =>
    intro acc hpos hcount
    rw [List.countP_cons] at hcount
    by_cases hname : s.name = nm
    · have hrest : rest.countP (fun s => s.name == nm) = 0 := by
        have htrue : (s.name == nm) = true := by simp [hname]
        rw [htrue, if_pos rfl] at hcount
        omega
      have hnonm : ∀ s' ∈ rest, s'.name ≠ nm := by
        intro s' hs' heq
        have hp : 0 < rest.countP (fun s => s.name == nm) :=
          List.countP_pos.mpr ⟨s', hs', by simp [heq]⟩
        omega
      have hcds : 0 < acc.2 s.name := by rw [hname]; exact hpos
      have hacc2 : (evalStrategy hist regime f acc s).2 nm = acc.2 nm - 1 := by
        rw [evalStrategy_snd, if_pos hcds]
        unfold updateCounter
        rw [if_pos hname.symm, hname]
      have hacc1 : (evalStrategy hist regime f acc s).1 = acc.1 := by
        rw [evalStrategy_fst, if_pos hcds]
      constructor
      · rw [List.foldl_cons,
          evalFold_cd_of_notmem hist regime f nm rest _ hnonm, hacc2]
      · intro stat hstat
        rw [List.foldl_cons] at hstat
        rcases evalFold_mem hist regime f rest _ stat hstat with
          hm | ⟨s', hs', sig, _, hstat'⟩
        · rw [hacc1] at hm; exact Or.inl hm
        · right
          rw [hstat']
          show (estimate s'.name regime.str _ f.funding_rate).name ≠ nm
          rw [estimate_name]
          exact hnonm s' hs'
    · have hrest : rest.countP (fun s => s.name == nm) = 1 := by
        have hfalse : (s.name == nm) = false := by simp [hname]
        rw [hfalse, if_neg (by decide)] at hcount
        omega
      have hacc2 : (evalStrategy hist regime f acc s).2 nm = acc.2 nm := by
        rw [evalStrategy_snd]
        by_cases hcd : 0 < acc.2 s.name
        · rw [if_pos hcd]
          unfold updateCounter
          rw [if_neg (fun hh => hname hh.symm)]
        · rw [if_neg hcd]
      have hpos' : 0 < (evalStrategy hist regime f acc s).2 nm :=
        hacc2 ▸ hpos
      obtain ⟨ihcd, ihstats⟩ := ih (evalStrategy hist regime f acc s)
        hpos' hrest
      constructor
      · rw [List.foldl_cons, ihcd, hacc2]
      · intro stat hstat
        rw [List.foldl_cons] at hstat
        rcases ihstats stat hstat with hm | hne
        · rw [evalStrategy_fst] at hm
          by_cases hcd : 0 < acc.2 s.name
          · rw [if_pos hcd] at hm; exact Or.inl hm
          · rw [if_neg hcd] at hm
            cases hg : s.generate f with
            | none => rw [hg] at hm; exact Or.inl hm
            | some sig =>
              rw [hg] at hm
              rcases List.mem_append.mp hm with hm | hm
              · exact Or.inl hm
              · right
                have hst : stat = { estimate s.name regime.str
                    (storeGet hist s.name regime.str) f.funding_rate with
                      signal := some sig } := by simpa using hm
                rw [hst]
                show (estimate s.name regime.str _ f.funding_rate).name ≠ nm
                rw [estimate_name]
                exact hname
        · exact Or.inr hne

lemma evalFold_stats_mono (hist : HistoryStore) (regime : MarketRegime)
    (f : MarketFeatures) :
    ∀ (pool : List Strategy) (acc : List StrategyStats × (String → ℕ)),
      ∃ l, (pool.foldl (evalStrategy hist regime f) acc).1 = acc.1 ++ l := by
  intro pool
  induction pool with
  | nil => intro acc; exact ⟨[], (List.append_nil _).symm⟩
  | cons s rest ih =>
    intro acc
    obtain ⟨l, hl⟩ := ih (evalStrategy hist regime f acc s)
    rw [List.foldl_cons]
    by_cases hcd : 0 < acc.2 s.name
    · refine ⟨l, ?_⟩
      rw [hl, evalStrategy_fst, if_pos hcd]
    · cases hg : s.generate f with
      | none =>
        refine ⟨l, ?_⟩
        rw [hl, evalStrategy_fst, if_neg hcd, hg]
      | some sig =>
        refine ⟨{ estimate s.name regime.str
            (storeGet hist s.name regime.str) f.funding_rate with
          signal := some sig } :: l, ?_⟩
        rw [hl, evalStrategy_fst, if_neg hcd, hg, List.append_assoc,
          List.singleton_append]

lemma evalFold_cd_zero (hist : HistoryStore) (regime : MarketRegime)
    (f : MarketFeatures) (nm : String) :
    ∀ (pool : List Strategy) (acc : List StrategyStats × (String → ℕ)),
      acc.2 nm = 0 →
      (pool.foldl (evalStrategy hist regime f) acc).2 nm = 0 := by
  intro pool
  induction pool with
  | nil => intro acc h0; exact h0
  | cons s rest ih =>
    intro acc h0
    rw [List.foldl_cons]
    refine ih (evalStrategy hist regime f acc s) ?_
    rw [evalStrategy_snd]
    by_cases hcd : 0 < acc.2 s.name
    · rw [if_pos hcd]
      unfold updateCounter
      by_cases heq : nm = s.name
      · rw [← heq] at hcd
        omega
      · rw [if_neg heq]; exact h0
    · rw [if_neg hcd]; exact h0

lemma evalFold_eligible (hist : HistoryStore) (regime : MarketRegime)
    (f : MarketFeatures) (nm : String) :
    ∀ (pool : List Strategy) (acc : List StrategyStats × (String → ℕ)),
      acc.2 nm = 0 →
      ∀ s ∈ pool, s.name = nm → ∀ sig, s.generate f = some sig →
      ∃ stat ∈ (pool.foldl (evalStrategy hist regime f) acc).1,
        stat.name = nm := by
  intro pool
  induction pool with
  | nil => intro acc _ s hs; exact absurd hs (List.not_mem_nil s)
  | cons t rest ih =>
    intro acc h0 s hs hname sig hgen
    rcases List.mem_cons.mp hs with rfl | hs'
    · have hcd : ¬ 0 < acc.2 s.name := by rw [hname, h0]; simp
      rw [List.foldl_cons]
      obtain ⟨l, hl⟩ := evalFold_stats_mono hist regime f rest
        (evalStrategy hist regime f acc s)
      refine ⟨{ estimate s.name regime.str
          (storeGet hist s.name regime.str) f.funding_rate with
        signal := some sig }, ?_, ?_⟩
      · rw [hl, evalStrategy_fst, if_neg hcd, hgen]
        simp
      · show (estimate s.name regime.str _ f.funding_rate).name = nm
        rw [estimate_name]; exact hname
    · have h0' : (evalStrategy hist regime f acc t).2 nm = 0 := by
        rw [evalStrategy_snd]
        by_cases hcd : 0 < acc.2 t.name
        · rw [if_pos hcd]
          unfold updateCounter
          by_cases heq : nm = t.name
          · rw [← heq] at hcd; omega
          · rw [if_neg heq]; exact h0
        · rw [if_neg hcd]; exact h0
      rw [List.foldl_cons]
      exact ih (evalStrategy hist regime f acc t) h0' s hs' hname sig hgen

lemma onTradeClose_cooldown_added (st : EngineState) (nm r : String)
    (pnl : ℚ) (hpnl : pnl < 0) :
    (onTradeClose st nm r pnl).cooldown nm = st.cooldown nm + 3 := by
  unfold onTradeClose
  rw [if_pos hpnl]
  unfold updateCounter
  simp

/-- The engine state after a mean-reversion loss: cooldown
"mean_reversion" = 3. -/
def c4mr : EngineState :=
  onTradeClose freshEngine "mean_reversion" "distribution" (-1)

/-- Claim C4, counterexample: the claim's "during every decision step, any
strategy whose counter is > 0 ... is decremented by 1" fails — a step whose
regime is TREND leaves mean_reversion's counter at 3 untouched, because only
strategies in the current regime's pool are visited. -/
theorem c4_cooldown_counterexample :
    c4mr.cooldown "mean_reversion" = 3 ∧
    detect_regime (scenFeatures 100 1) = .TREND ∧
    (engineStep c4mr (scenFeatures 100 1) 10000).2.cooldown "mean_reversion"
      = 3 := by
  refine ⟨?_, ?_, ?_⟩ <;> decide

/-- Claim C4, amended: `on_trade_close` with pnl < 0 adds 3 to the
strategy's counter; during a decision step, any strategy IN THE CURRENT
REGIME'S POOL whose counter is > 0 is skipped for evaluation and its counter
decremented by 1; consequently after `on_trade_close(S, R, −1.0)` (counter
previously 0) the next 3 steps whose regime pool contains S skip S entirely
(no stat produced from S), and on the 4th such step S is eligible again (if
it generates a signal, a stat of S is produced). -/
theorem c4_cooldown_amended
    (st st0 st1 st2 st3 : EngineState) (nm r : String) (pnl : ℚ)
    (f1 f2 f3 f4 : MarketFeatures) (e1 e2 e3 : ℚ)
    (hpnl : pnl < 0) (hcd : st.cooldown nm = 0)
    (hst0 : st0 = onTradeClose st nm r pnl)
    (hst1 : st1 = (engineStep st0 f1 e1).2)
    (hst2 : st2 = (engineStep st1 f2 e2).2)
    (hst3 : st3 = (engineStep st2 f3 e3).2)
    (hc1 : (REGIME_POOL (detect_regime f1)).countP
      (fun s => s.name == nm) = 1)
    (hc2 : (REGIME_POOL (detect_regime f2)).countP
      (fun s => s.name == nm) = 1)
    (hc3 : (REGIME_POOL (detect_regime f3)).countP
      (fun s => s.name == nm) = 1) :
    st0.cooldown nm = 3 ∧
    (∀ stat ∈ (evalPool (REGIME_POOL (detect_regime f1)) st0 f1
        (detect_regime f1)).1, stat.name ≠ nm) ∧
    st1.cooldown nm = 2 ∧
    (∀ stat ∈ (evalPool (REGIME_POOL (detect_regime f2)) st1 f2
        (detect_regime f2)).1, stat.name ≠ nm) ∧
    st2.cooldown nm = 1 ∧
    (∀ stat ∈ (evalPool (REGIME_POOL (detect_regime f3)) st2 f3
        (detect_regime f3)).1, stat.name ≠ nm) ∧
    st3.cooldown nm = 0 ∧
    (∀ s ∈ REGIME_POOL (detect_regime f4), s.name = nm →
      ∀ sig, s.generate f4 = some sig →
      ∃ stat ∈ (evalPool (REGIME_POOL (detect_regime f4)) st3 f4
          (detect_regime f4)).1, stat.name = nm) := by
  have h0 : st0.cooldown nm = 3 := by
    rw [hst0, onTradeClose_cooldown_added st nm r pnl hpnl, hcd]
  obtain ⟨ha1, hb1⟩ := evalFold_skip st0.history (detect_regime f1) f1 nm
    (REGIME_POOL (detect_regime f1)) ([], st0.cooldown)
    (by show 0 < st0.cooldown nm; rw [h0]; decide) hc1
  have hs1 : ∀ stat ∈ (evalPool (REGIME_POOL (detect_regime f1)) st0 f1
      (detect_regime f1)).1, stat.name ≠ nm := by
    intro stat hstat
    rcases hb1 stat hstat with hin | hne
    · exact absurd hin (List.not_mem_nil stat)
    · exact hne
  have hcool1 : st1.cooldown nm = 2 := by
    rw [hst1, engineStep_snd]
    show (evalPool (REGIME_POOL (detect_regime f1)) st0 f1
      (detect_regime f1)).2 nm = 2
    have heq : (evalPool (REGIME_POOL (detect_regime f1)) st0 f1
      (detect_regime f1)).2 nm = st0.cooldown nm - 1 := ha1
    rw [heq, h0]
  obtain ⟨ha2, hb2⟩ := evalFold_skip st1.history (detect_regime f2) f2 nm
    (REGIME_POOL (detect_regime f2)) ([], st1.cooldown)
    (by show 0 < st1.cooldown nm; rw [hcool1]; decide) hc2
  have hs2 : ∀ stat ∈ (evalPool (REGIME_POOL (detect_regime f2)) st1 f2
      (detect_regime f2)).1, stat.name ≠ nm := by
    intro stat hstat
    rcases hb2 stat hstat with hin | hne
    · exact absurd hin (List.not_mem_nil stat)
    · exact hne
  have hcool2 : st2.cooldown nm = 1 := by
    rw [hst2, engineStep_snd]
    show (evalPool (REGIME_POOL (detect_regime f2)) st1 f2
      (detect_regime f2)).2 nm = 1
    have heq : (evalPool (REGIME_POOL (detect_regime f2)) st1 f2
      (detect_regime f2)).2 nm = st1.cooldown nm - 1 := ha2
    rw [heq, hcool1]
  obtain ⟨ha3, hb3⟩ := evalFold_skip st2.history (detect_regime f3) f3 nm
    (REGIME_POOL (detect_regime f3)) ([], st2.cooldown)
    (by show 0 < st2.cooldown nm; rw [hcool2]; decide) hc3
  have hs3 : ∀ stat ∈ (evalPool (REGIME_POOL (detect_regime f3)) st2 f3
      (detect_regime f3)).1, stat.name ≠ nm := by
    intro stat hstat
    rcases hb3 stat hstat with hin | hne
    · exact absurd hin (List.not_mem_nil stat)
    · exact hne
  have hcool3 : st3.cooldown nm = 0 := by
    rw [hst3, engineStep_snd]
    show (evalPool (REGIME_POOL (detect_regime f3)) st2 f3
      (detect_regime f3)).2 nm = 0
    have heq : (evalPool (REGIME_POOL (detect_regime f3)) st2 f3
      (detect_regime f3)).2 nm = st2.cooldown nm - 1 := ha3
    rw [heq, hcool2]
  have hel4 : ∀ s ∈ REGIME_POOL (detect_regime f4), s.name = nm →
      ∀ sig, s.generate f4 = some sig →
      ∃ stat ∈ (evalPool (REGIME_POOL (detect_regime f4)) st3 f4
          (detect_regime f4)).1, stat.name = nm := by
    intro s hs hname sig hgen
    exact evalFold_eligible st3.history (detect_regime f4) f4 nm
      (REGIME_POOL (detect_regime f4)) ([], st3.cooldown)
      (by show st3.cooldown nm = 0; exact hcool3) s hs hname sig hgen
  exact ⟨h0, hs1, hcool1, hs2, hcool2, hs3, hcool3, hel4⟩

/-- Engine state after a breakout loss from fresh: cooldown "breakout" 3. -/
def c4st0 : EngineState := onTradeClose freshEngine "breakout" "trend" (-1)

/-- State after the 1st subsequent TREND step. -/
def c4st1 : EngineState := (engineStep c4st0 (scenFeatures 100 1) 10000).2

/-- State after the 2nd subsequent TREND step. -/
def c4st2 : EngineState := (engineStep c4st1 (scenFeatures 100 1) 10000).2

/-- State after the 3rd subsequent TREND step. -/
def c4st3 : EngineState := (engineStep c4st2 (scenFeatures 100 1) 10000).2

/-- Claim C4 witness: the amended cooldown behaviour instantiated at
S = "breakout", R = "trend", pnl = −1, with four TREND scenario steps. -/
theorem c4_cooldown_amended_witness :
    c4st0.cooldown "breakout" = 3 ∧
    (∀ stat ∈ (evalPool (REGIME_POOL (detect_regime (scenFeatures 100 1)))
        c4st0 (scenFeatures 100 1)
        (detect_regime (scenFeatures 100 1))).1, stat.name ≠ "breakout") ∧
    c4st1.cooldown "breakout" = 2 ∧
    (∀ stat ∈ (evalPool (REGIME_POOL (detect_regime (scenFeatures 100 1)))
        c4st1 (scenFeatures 100 1)
        (detect_regime (scenFeatures 100 1))).1, stat.name ≠ "breakout") ∧
    c4st2.cooldown "breakout" = 1 ∧
    (∀ stat ∈ (evalPool (REGIME_POOL (detect_regime (scenFeatures 100 1)))
        c4st2 (scenFeatures 100 1)
        (detect_regime (scenFeatures 100 1))).1, stat.name ≠ "breakout") ∧
    c4st3.cooldown "breakout" = 0 ∧
    (∀ s ∈ REGIME_POOL (detect_regime (scenFeatures 100 1)),
      s.name = "breakout" →
      ∀ sig, s.generate (scenFeatures 100 1) = some sig →
      ∃ stat ∈ (evalPool (REGIME_POOL (detect_regime (scenFeatures 100 1)))
          c4st3 (scenFeatures 100 1)
          (detect_regime (scenFeatures 100 1))).1,
        stat.name = "breakout") :=
  c4_cooldown_amended freshEngine c4st0 c4st1 c4st2 c4st3 "breakout" "trend"
    (-1) (scenFeatures 100 1) (scenFeatures 100 1) (scenFeatures 100 1)
    (scenFeatures 100 1) 10000 10000 10000
    (by decide) rfl rfl rfl rfl rfl (by decide) (by decide) (by decide)

/-- The long breakout signal produced on the §8 scenario snapshot at price
100, atr_value 1. -/
def sigScen : StrategySignal :=
  { direction := .long, entry := 100, stop := 98.8, target := 102.4 }

/-- The decision produced on the §8 scenario snapshot at price 100,
atr_value 1. -/
def dScen : Decision :=
  { strategy := "breakout", regime := "trend", size := 10000 / 3,
    ev := 0.002, signal := some sigScen }

/-- Claim C10 witness: the fresh engine on the scenario snapshot emits the
breakout decision, whose signal's entry is the snapshot's price 100. -/
theorem c10_entry_at_snapshot_price_witness :
    (engineStep freshEngine (scenFeatures 100 1) 10000).1 = some dScen ∧
    ∃ sig, dScen.signal = some sig ∧
      sig.entry = (scenFeatures 100 1).price :=
  ⟨by decide, c10_entry_at_snapshot_price.1 freshEngine (scenFeatures 100 1)
    10000 dScen (by decide)⟩

/-! ## Claim C1 — end-to-end TREND scenario -/

/-- The long signal Breakout produces on the scenario snapshot: stop 1.2 ATR
below entry, target 2.4 ATR above (2.0 base + 0.25 adx bonus + 0.15 volume
bonus). -/
def sigBreakout (price atrv : ℚ) : StrategySignal :=
  { direction := .long, entry := price, stop := price - atrv * 1.2,
    target := price + atrv * 2.4 }

/-- The long signal TrendFollowing produces on the scenario snapshot: stop
1.5 ATR below entry, target 3.0 ATR above (base, no bonuses). -/
def sigTrend (price atrv : ℚ) : StrategySignal :=
  { direction := .long, entry := price, stop := price - atrv * 1.5,
    target := price + atrv * 3 }

/-- Breakout's candidate stats in the scenario: the bootstrap stats with its
signal attached. -/
def statBreakoutScen (price atrv : ℚ) : StrategyStats :=
  { bootstrapStats "breakout" "trend" with
    signal := some (sigBreakout price atrv) }

/-- TrendFollowing's candidate stats in the scenario: the bootstrap stats
with its signal attached. -/
def statTrendScen (price atrv : ℚ) : StrategyStats :=
  { bootstrapStats "trend" "trend" with signal := some (sigTrend price atrv) }

/-- The decision `step` emits in the scenario. -/
def decScen (price atrv : ℚ) : Decision :=
  { strategy := "breakout", regime := "trend", size := 10000 / 3,
    ev := 0.002, signal := some (sigBreakout price atrv) }

lemma estimate_bootstrap_breakout :
    estimate "breakout" "trend" [] 0 = bootstrapStats "breakout" "trend" :=
  rfl

lemma estimate_bootstrap_trend :
    estimate "trend" "trend" [] 0 = bootstrapStats "trend" "trend" := rfl

lemma evalStrategy_scen_breakout (price atrv : ℚ) :
    evalStrategy freshEngine.history .TREND (scenFeatures price atrv)
      ([], freshEngine.cooldown) ⟨"breakout", breakoutGenerate⟩ =
    ([statBreakoutScen price atrv], freshEngine.cooldown) := by
  have hB : breakoutGenerate (scenFeatures price atrv) =
      some (sigBreakout price atrv) := by
    norm_num [breakoutGenerate, scenFeatures, sigBreakout, min_def]
  have hncd : ¬ 0 < freshEngine.cooldown "breakout" := by
    simp [freshEngine]
  refine Prod.ext ?_ ?_
  · rw [evalStrategy_fst, if_neg hncd]
    simp only [hB]
    rw [show storeGet freshEngine.history "breakout" MarketRegime.TREND.str
        = [] from rfl,
      show MarketRegime.TREND.str = "trend" from rfl,
      show (scenFeatures price atrv).funding_rate = 0 from rfl,
      estimate_bootstrap_breakout]
    simp only [List.nil_append]
    rfl
  · rw [evalStrategy_snd, if_neg hncd]

lemma evalStrategy_scen_trend (price atrv : ℚ) :
    evalStrategy freshEngine.history .TREND (scenFeatures price atrv)
      ([statBreakoutScen price atrv], freshEngine.cooldown)
      ⟨"trend", trendGenerate⟩ =
    ([statBreakoutScen price atrv, statTrendScen price atrv],
      freshEngine.cooldown) := by
  have hT : trendGenerate (scenFeatures price atrv) =
      some (sigTrend price atrv) := by
    norm_num [trendGenerate, scenFeatures, sigTrend, min_def]
  have hncd : ¬ 0 < freshEngine.cooldown "trend" := by
    simp [freshEngine]
  refine Prod.ext ?_ ?_
  · rw [evalStrategy_fst, if_neg hncd]
    simp only [hT]
    rw [show storeGet freshEngine.history "trend" MarketRegime.TREND.str
        = [] from rfl,
      show MarketRegime.TREND.str = "trend" from rfl,
      show (scenFeatures price atrv).funding_rate = 0 from rfl,
      estimate_bootstrap_trend]
    rfl
  · rw [evalStrategy_snd, if_neg hncd]

lemma evalPool_scen (price atrv : ℚ) :
    evalPool (REGIME_POOL .TREND) freshEngine (scenFeatures price atrv)
      .TREND =
    ([statBreakoutScen price atrv, statTrendScen price atrv],
      freshEngine.cooldown) := by
  show (REGIME_POOL .TREND).foldl
    (evalStrategy freshEngine.history .TREND (scenFeatures price atrv))
    ([], freshEngine.cooldown) = _
  rw [show REGIME_POOL .TREND = [⟨"breakout", breakoutGenerate⟩,
    ⟨"trend", trendGenerate⟩] from rfl]
  rw [List.foldl_cons, evalStrategy_scen_breakout, List.foldl_cons,
    evalStrategy_scen_trend, List.foldl_nil]

lemma select_best_scen (price atrv : ℚ) :
    select_best [statBreakoutScen price atrv, statTrendScen price atrv] =
      some (statBreakoutScen price atrv) := by
  have hvB : validStat (statBreakoutScen price atrv) = true := by
    norm_num [validStat, statBreakoutScen, bootstrapStats]
  have hvT : validStat (statTrendScen price atrv) = true := by
    norm_num [validStat, statTrendScen, bootstrapStats]
  have hns : ¬ compositeScoreSq (statBreakoutScen price atrv) <
      compositeScoreSq (statTrendScen price atrv) := by
    norm_num [compositeScoreSq, statBreakoutScen, statTrendScen,
      bootstrapStats, winRateBonus, rrBonus]
  simp only [select_best, List.filter_cons, hvB, hvT, if_pos,
    List.filter_nil, List.foldl_cons, List.foldl_nil, if_neg hns]

lemma position_size_scen (price atrv : ℚ) :
    position_size 10000 (statBreakoutScen price atrv) 0.01 = 10000 / 3 := by
  norm_num [position_size, statBreakoutScen, bootstrapStats, min_def,
    max_def]

lemma engineStep_scen (price atrv : ℚ) :
    (engineStep freshEngine (scenFeatures price atrv) 10000).1 =
      some (decScen price atrv) := by
  have hreg : detect_regime (scenFeatures price atrv) = .TREND := by
    norm_num [detect_regime, scenFeatures]
  simp only [engineStep, hreg, evalPool_scen, select_best_scen]
  rw [show (scenFeatures price atrv).atr_pct = (0.01 : ℚ) from rfl,
    position_size_scen]
  rw [if_neg (show ¬ (10000 / 3 : ℚ) ≤ 0 by norm_num)]
  rfl

/-- Claim C1 (confirmed): on the §8 scenario snapshot (any price and
absolute ATR), the regime is TREND; Breakout and TrendFollowing both
produce long signals entered at the snapshot price; both candidates carry
the bootstrap EV stats (ev 0.002, confidence 0.5 each, the history being
empty); the composite scores tie exactly and the selector deterministically
picks the first candidate in pool evaluation order (breakout); the sizer
returns 10000/3 > 0 for equity 10,000 at volatility 0.01; and `step`
returns that non-null breakout decision. -/
theorem c1_trend_scenario_end_to_end (price atrv : ℚ) :
    detect_regime (scenFeatures price atrv) = .TREND ∧
    breakoutGenerate (scenFeatures price atrv) =
      some (sigBreakout price atrv) ∧
    (sigBreakout price atrv).direction = .long ∧
    trendGenerate (scenFeatures price atrv) = some (sigTrend price atrv) ∧
    (sigTrend price atrv).direction = .long ∧
    (evalPool (REGIME_POOL .TREND) freshEngine (scenFeatures price atrv)
        .TREND).1 =
      [statBreakoutScen price atrv, statTrendScen price atrv] ∧
    (statBreakoutScen price atrv).ev = 0.002 ∧
    (statBreakoutScen price atrv).confidence = 0.5 ∧
    (statTrendScen price atrv).ev = 0.002 ∧
    (statTrendScen price atrv).confidence = 0.5 ∧
    compositeScoreSq (statBreakoutScen price atrv) =
      compositeScoreSq (statTrendScen price atrv) ∧
    select_best [statBreakoutScen price atrv, statTrendScen price atrv] =
      some (statBreakoutScen price atrv) ∧
    position_size 10000 (statBreakoutScen price atrv) 0.01 = 10000 / 3 ∧
    0 < position_size 10000 (statBreakoutScen price atrv) 0.01 ∧
    (engineStep freshEngine (scenFeatures price atrv) 10000).1 =
      some (decScen price atrv) := by
  refine ⟨by norm_num [detect_regime, scenFeatures], ?_, rfl, ?_, rfl,
    ?_, rfl, rfl, rfl, rfl, ?_, select_best_scen price atrv,
    position_size_scen price atrv, ?_, engineStep_scen price atrv⟩
  · norm_num [breakoutGenerate, scenFeatures, sigBreakout, min_def]
  · norm_num [trendGenerate, scenFeatures, sigTrend, min_def]
  · rw [evalPool_scen]
  · norm_num [compositeScoreSq, statBreakoutScen, statTrendScen,
      bootstrapStats, winRateBonus, rrBonus]
  · rw [position_size_scen]; norm_num
